import Mathlib

/-!
Verification of the Secret Santa core (`app.py`): the assignment resolver
`find_assignment` and the token generator `gen_password_christmas`, plus the
zero-row validation performed by the `admin_matrix` handler.

Randomness is modelled by oracles: `rs : Nat → List Nat` gives the result of
the t-th `random.shuffle` call (always a permutation of `range n` in the real
program, which becomes a hypothesis where needed); `ra rn : Nat → Nat` give
the indices chosen by the t-th pair of `random.choice` calls; `rNum : Nat`
is the result of the single possible `random.randint(10, 99)` call.
Python `IndexError` on matrix indexing is made explicit with `Except`.
-/

namespace SSanta

/-- The hard-coded adjective vocabulary of `gen_password_christmas`. -/
def adjectifs : List String :=
  ["joyeux", "blanc", "rouge", "vert", "dore", "argente", "brillant",
   "festif", "magique", "hivernal", "sucre", "gourmand", "glace",
   "etincelant", "lumineux",
   "merveilleux", "etonnant", "petillant", "enchante", "radieux",
   "epique", "fantastique"]

/-- The hard-coded noun vocabulary of `gen_password_christmas`. -/
def noms : List String :=
  ["sapin", "renne", "lutin", "traineau", "bonnet", "cadeau",
   "houx", "flocon", "pain_depice",
   "ours", "elfe", "jouet", "carillon",
   "bonhomme",
   "ruban", "pere_noel", "rudolf"]

/-- The t-th candidate string: the chosen adjective and noun joined by an
underscore, where the choice oracles `ra`, `rn` give the indices picked by the
t-th pair of `random.choice` calls. -/
def candidate (ra rn : Nat → Nat) (t : Nat) : String :=
  adjectifs.getD (ra t) "" ++ "_" ++ noms.getD (rn t) ""

/-- The `for _ in range(100)` loop of `gen_password_christmas`: draw a candidate,
return it if it is not in `existing`, else retry.  `t` counts pair-draws already
consumed; the second component of the result is the total pair-draw count. -/
def gpcLoop (existing : List String) (ra rn : Nat → Nat) :
    Nat → Nat → Option String × Nat
  | t, 0 => (none, t)
  | t, fuel + 1 =>
    if candidate ra rn t ∈ existing then gpcLoop existing ra rn (t + 1) fuel
    else (some (candidate ra rn t), t + 1)

/-- `gen_password_christmas(existing_set)`: `None` is replaced by the empty set;
up to 100 loop candidates are tried, and on exhaustion a fresh pair plus the
`random.randint(10,99)` suffix `rNum` is returned unchecked.  The second
component is the number of (adjective, noun) pair draws consumed. -/
def gen_password_christmas (existing? : Option (List String))
    (ra rn : Nat → Nat) (rNum : Nat) : String × Nat :=
  match gpcLoop (existing?.getD []) ra rn 0 100 with
  | (some c, d) => (c, d)
  | (none, d) => (candidate ra rn d ++ "_" ++ toString rNum, d + 1)

/-- Result of `find_assignment`: a mapping, `None` after exhausting the retry
budget, or a Python `IndexError` raised by `compat_matrix[i][j]`. -/
inductive FAResult where
  | found (m : List (String × String))
  | exhausted
  | indexError
deriving DecidableEq, Repr

/-- The matrix entry `compat_matrix[i][j]` as Python evaluates it: `none` means
an `IndexError` (from either the row or the column access). -/
def entry? (compat : List (List Nat)) (i j : Nat) : Option Nat :=
  (compat.get? i).bind fun row => row.get? j

/-- The inner `for i, j in enumerate(perm)` loop: checks `compat_matrix[i][j] != 1`
with a break, raising (`Except.error`) when an index is out of range, exactly as
Python list indexing would. `i` is the running row index. -/
def checkLoop (compat : List (List Nat)) : Nat → List Nat → Except Unit Bool
  | _, [] => .ok true
  | i, j :: rest =>
    match entry? compat i j with
    | none => .error ()
    | some v => if v ≠ 1 then .ok false else checkLoop compat (i + 1) rest

/-- The dict comprehension mapping each `names[i]` to `names[perm[i]]`,
as an association list in insertion order. -/
def buildMapping (names : List String) (perm : List Nat) : List (String × String) :=
  (List.range names.length).map fun i => (names.getD i "", names.getD (perm.getD i 0) "")

/-- The `for _ in range(max_tries)` retry loop of `find_assignment`.  `t` counts
shuffle draws already consumed, `fuel` the remaining tries; the second component
of the result is the total number of shuffle draws consumed. -/
def faLoop (names : List String) (compat : List (List Nat)) (rs : Nat → List Nat) :
    Nat → Nat → FAResult × Nat
  | t, 0 => (.exhausted, t)
  | t, fuel + 1 =>
    match checkLoop compat 0 (rs t) with
    | .error _ => (.indexError, t + 1)
    | .ok true => (.found (buildMapping names (rs t)), t + 1)
    | .ok false => faLoop names compat rs (t + 1) fuel

/-- `find_assignment(names, compat_matrix, max_tries)` with the shuffle oracle
`rs`; returns the result together with the number of shuffle draws consumed. -/
def find_assignment (names : List String) (compat : List (List Nat))
    (maxTries : Nat) (rs : Nat → List Nat) : FAResult × Nat :=
  if names.length = 0 then (.found [], 0)
  else faLoop names compat rs 0 maxTries

/-- The zero-row scan of the `admin_matrix` handler
(`for i in range(n): if sum(compat[i]) == 0: ...` naming `names[i]`):
returns the name of the first participant whose row sums to zero, if any.
`i` is the running row index and `fuel` the remaining rows. -/
def zeroRowAux (names : List String) (compat : List (List Nat)) :
    Nat → Nat → Option String
  | _, 0 => none
  | i, fuel + 1 =>
    if (compat.getD i []).sum = 0 then some (names.getD i "")
    else zeroRowAux names compat (i + 1) fuel

/-- The `admin_matrix` validation: the participant flagged as having an all-zero
row, or `none` when every row has a permissible recipient (only then is the
matrix saved and `find_assignment` ever invoked on it). -/
def zeroRowName (names : List String) (compat : List (List Nat)) : Option String :=
  zeroRowAux names compat 0 names.length

/-! ### Concrete random sources used in witnesses and counterexamples -/

/-- A shuffle oracle that always yields the swap permutation of two indices. -/
def rsBA : Nat → List Nat := fun _ => [1, 0]

/-- A shuffle oracle that always yields the identity permutation of two indices. -/
def rsId2 : Nat → List Nat := fun _ => [0, 1]

/-- A shuffle oracle alternating the two permutations of two indices. -/
def rsSwap : Nat → List Nat := fun t => if t % 2 = 0 then [0, 1] else [1, 0]

/-- A shuffle oracle that always yields a cyclic permutation of three indices. -/
def rsCycle3 : Nat → List Nat := fun _ => [1, 2, 0]

deriving instance DecidableEq for Except

/-! ### General list lemmas -/

/-- Mapping an index-based read over `range l.length` recovers `l.map f`. -/
lemma map_getD_range {α β : Type} (l : List α) (d : α) (f : α → β) :
    (List.range l.length).map (fun i => f (l.getD i d)) = l.map f := by
  induction l with
  | nil => rfl
  | cons a l ih =>
    rw [List.length_cons, List.range_succ_eq_map, List.map_cons, List.map_map,
      List.map_cons]
    refine congrArg₂ List.cons rfl ?_
    have hfn : ((fun i => f ((a :: l).getD i d)) ∘ Nat.succ) = fun i => f (l.getD i d) :=
      funext fun i => by simp [List.getD_cons_succ]
    rw [hfn]
    exact ih

/-- In a list of naturals summing to zero, every element is zero. -/
lemma mem_of_sum_zero {l : List Nat} (h : l.sum = 0) : ∀ x ∈ l, x = 0 := by
  induction l with
  | nil => intro x hx; cases hx
  | cons a l ih =>
    intro x hx
    rw [List.sum_cons] at h
    rcases List.mem_cons.mp hx with rfl | hx
    · omega
    · exact ih (by omega) x hx

/-- An in-range `getD` read from a permutation of `range n` is below `n`. -/
lemma perm_range_getD_lt {p : List Nat} {n : Nat} (hp : p.Perm (List.range n))
    {k : Nat} (hk : k < p.length) : p.getD k 0 < n := by
  have hmem : p.getD k 0 ∈ p := by
    rw [List.getD_eq_getElem?_getD, List.getElem?_eq_getElem hk]
    exact List.getElem_mem hk
  exact List.mem_range.mp (hp.subset hmem)

/-- The two permutations of `range 2`, by enumeration. -/
lemma perm_range2 {p : List Nat} (h : p.Perm (List.range 2)) :
    p = [0, 1] ∨ p = [1, 0] := by
  have hmem := List.mem_permutations'.mpr h
  rw [show (List.range 2).permutations' = [[0, 1], [1, 0]] from by decide] at hmem
  simpa using hmem

/-- The six permutations of `range 3`, by enumeration. -/
lemma perm_range3 {p : List Nat} (h : p.Perm (List.range 3)) :
    p = [0, 1, 2] ∨ p = [1, 0, 2] ∨ p = [1, 2, 0] ∨
    p = [0, 2, 1] ∨ p = [2, 0, 1] ∨ p = [2, 1, 0] := by
  have hmem := List.mem_permutations'.mpr h
  rw [show (List.range 3).permutations' =
    [[0, 1, 2], [1, 0, 2], [1, 2, 0], [0, 2, 1], [2, 0, 1], [2, 1, 0]] from by decide]
    at hmem
  simpa using hmem

/-! ### The inner compatibility check -/

/-- A successful inner loop means every visited matrix entry exists and is 1. -/
lemma checkLoop_true_entry (compat : List (List Nat)) :
    ∀ (perm : List Nat) (i : Nat), checkLoop compat i perm = Except.ok true →
      ∀ k < perm.length, entry? compat (i + k) (perm.getD k 0) = some 1 := by
  intro perm
  induction perm with
  | nil =>
    intro i _ k hk
    cases hk
  | cons j rest ih =>
    intro i h k hk
    rw [checkLoop] at h
    cases hv : entry? compat i j with
    | none =>
      rw [hv] at h
      cases h
    | some v =>
      rw [hv] at h
      replace h : (if v ≠ 1 then Except.ok false else checkLoop compat (i + 1) rest)
          = Except.ok true := h
      by_cases hv1 : v ≠ 1
      · rw [if_pos hv1] at h
        cases h
      · rw [if_neg hv1] at h
        push_neg at hv1
        subst hv1
        cases k with
        | zero => simpa using hv
        | succ k =>
          have hrec := ih (i + 1) h k (by simpa using hk)
          have harith : i + 1 + k = i + (k + 1) := by omega
          rw [harith] at hrec
          simpa [List.getD_cons_succ] using hrec

/-- When every index the inner loop touches is in range, it cannot raise. -/
lemma checkLoop_isOk (compat : List (List Nat)) :
    ∀ (perm : List Nat) (i : Nat),
      i + perm.length ≤ compat.length →
      (∀ j ∈ perm, ∀ row ∈ compat, j < row.length) →
      ∃ b, checkLoop compat i perm = Except.ok b := by
  intro perm
  induction perm with
  | nil =>
    intro i _ _
    exact ⟨true, rfl⟩
  | cons j rest ih =>
    intro i hlen hmem
    have hi : i < compat.length := by
      simp only [List.length_cons] at hlen
      omega
    have hrow : compat.get? i = some compat[i] := by
      rw [List.get?_eq_getElem?, List.getElem?_eq_getElem hi]
    have hrowmem : compat[i] ∈ compat := List.getElem_mem hi
    have hj : j < compat[i].length := hmem j (List.mem_cons_self j rest) _ hrowmem
    have hv : entry? compat i j = some (compat[i][j]) := by
      rw [entry?, hrow, Option.some_bind, List.get?_eq_getElem?,
        List.getElem?_eq_getElem hj]
    by_cases h1 : compat[i][j] ≠ 1
    · refine ⟨false, ?_⟩
      rw [checkLoop, hv]
      exact if_pos h1
    · obtain ⟨b, hb⟩ := ih (i + 1)
        (by simp only [List.length_cons] at hlen; omega)
        (fun j' hj' => hmem j' (List.mem_cons_of_mem _ hj'))
      refine ⟨b, ?_⟩
      rw [checkLoop, hv]
      show (if compat[i][j] ≠ 1 then Except.ok false
        else checkLoop compat (i + 1) rest) = Except.ok b
      rw [if_neg h1]
      exact hb

/-- A zero row forces the inner loop to reject (or raise): it cannot accept. -/
lemma checkLoop_not_true_of_zero_row (compat : List (List Nat)) (perm : List Nat)
    (i : Nat) (row : List Nat) (hrow : compat.get? i = some row)
    (hzero : row.sum = 0) (hi : i < perm.length)
    (hj : perm.getD i 0 < row.length) :
    checkLoop compat 0 perm ≠ Except.ok true := by
  intro h
  have hentry := checkLoop_true_entry compat perm 0 h i hi
  rw [Nat.zero_add, entry?, hrow, Option.some_bind] at hentry
  have hmem : row.getD (perm.getD i 0) 0 ∈ row := by
    rw [List.getD_eq_getElem?_getD, List.getElem?_eq_getElem hj]
    exact List.getElem_mem hj
  have hzero' := mem_of_sum_zero hzero _ hmem
  have hone : row.getD (perm.getD i 0) 0 = 1 := by
    rw [List.getD_eq_getElem?_getD, ← List.get?_eq_getElem?, hentry]
    rfl
  omega

/-! ### The retry loop -/

/-- Any mapping produced by the retry loop comes from some accepted draw. -/
lemma faLoop_found (names : List String) (compat : List (List Nat))
    (rs : Nat → List Nat) :
    ∀ (fuel t : Nat) (m : List (String × String)) (d : Nat),
      faLoop names compat rs t fuel = (.found m, d) →
      ∃ s, t ≤ s ∧ s < t + fuel ∧ d = s + 1 ∧
        checkLoop compat 0 (rs s) = Except.ok true ∧ m = buildMapping names (rs s) := by
  intro fuel
  induction fuel with
  | zero =>
    intro t m d h
    rw [faLoop] at h
    cases h
  | succ fuel ih =>
    intro t m d h
    rw [faLoop] at h
    cases hc : checkLoop compat 0 (rs t) with
    | error e =>
      rw [hc] at h
      cases h
    | ok b =>
      rw [hc] at h
      cases b with
      | true =>
        replace h : ((FAResult.found (buildMapping names (rs t)), t + 1) : FAResult × Nat)
            = (.found m, d) := h
        simp only [Prod.mk.injEq, FAResult.found.injEq] at h
        exact ⟨t, Nat.le_refl t, by omega, h.2.symm, hc, h.1.symm⟩
      | false =>
        replace h : faLoop names compat rs (t + 1) fuel = (.found m, d) := h
        obtain ⟨s, h1, h2, h3, h4, h5⟩ := ih (t + 1) m d h
        exact ⟨s, by omega, by omega, h3, h4, h5⟩

/-- If every draw is rejected, the retry loop exhausts its whole budget. -/
lemma faLoop_all_fail (names : List String) (compat : List (List Nat))
    (rs : Nat → List Nat)
    (hall : ∀ s, checkLoop compat 0 (rs s) = Except.ok false) :
    ∀ (fuel t : Nat), faLoop names compat rs t fuel = (.exhausted, t + fuel) := by
  intro fuel
  induction fuel with
  | zero =>
    intro t
    rw [faLoop]
    rfl
  | succ fuel ih =>
    intro t
    have hstep : faLoop names compat rs t (fuel + 1) = faLoop names compat rs (t + 1) fuel := by
      rw [faLoop, hall t]
    rw [hstep, ih (t + 1)]
    have harith : t + 1 + fuel = t + (fuel + 1) := by omega
    rw [harith]

/-- If no draw can raise, the retry loop never reports an index error. -/
lemma faLoop_ne_error (names : List String) (compat : List (List Nat))
    (rs : Nat → List Nat)
    (hok : ∀ s, ∃ b, checkLoop compat 0 (rs s) = Except.ok b) :
    ∀ (fuel t : Nat), (faLoop names compat rs t fuel).1 ≠ FAResult.indexError := by
  intro fuel
  induction fuel with
  | zero =>
    intro t h
    rw [faLoop] at h
    cases h
  | succ fuel ih =>
    intro t h
    rw [faLoop] at h
    obtain ⟨b, hb⟩ := hok t
    rw [hb] at h
    cases b with
    | true =>
      replace h : FAResult.found (buildMapping names (rs t)) = FAResult.indexError := h
      cases h
    | false =>
      replace h : (faLoop names compat rs (t + 1) fuel).1 = FAResult.indexError := h
      exact ih (t + 1) h

/-- Soundness core: a returned mapping is built from some permutation of
`range n` accepted by the inner check (for `n = 0` this is the empty one). -/
lemma find_found_perm (names : List String) (compat : List (List Nat))
    (maxTries : Nat) (rs : Nat → List Nat) (m : List (String × String)) (d : Nat)
    (hrs : ∀ t, (rs t).Perm (List.range names.length))
    (h : find_assignment names compat maxTries rs = (.found m, d)) :
    ∃ perm : List Nat, perm.Perm (List.range names.length) ∧
      checkLoop compat 0 perm = Except.ok true ∧ m = buildMapping names perm := by
  rw [find_assignment] at h
  by_cases hn : names.length = 0
  · rw [if_pos hn] at h
    simp only [Prod.mk.injEq, FAResult.found.injEq] at h
    refine ⟨[], ?_, rfl, ?_⟩
    · rw [hn]
      rfl
    · rw [← h.1, buildMapping, hn]
      rfl
  · rw [if_neg hn] at h
    obtain ⟨s, _, _, _, hc, hm⟩ := faLoop_found names compat rs maxTries 0 m d h
    exact ⟨rs s, hrs s, hc, hm⟩

/-! ### The generator loop -/

/-- The generator loop returns the first fresh candidate (position `t + k`,
with all earlier candidates colliding), consuming `k + 1` further draws. -/
lemma gpcLoop_first (existing : List String) (ra rn : Nat → Nat) :
    ∀ (k t fuel : Nat), k < fuel →
      candidate ra rn (t + k) ∉ existing →
      (∀ s < k, candidate ra rn (t + s) ∈ existing) →
      gpcLoop existing ra rn t fuel = (some (candidate ra rn (t + k)), t + k + 1) := by
  intro k
  induction k with
  | zero =>
    intro t fuel hf hnew _
    cases fuel with
    | zero => omega
    | succ f =>
      rw [gpcLoop, if_neg (by simpa using hnew)]
      rfl
  | succ k ih =>
    intro t fuel hf hnew hold
    cases fuel with
    | zero => omega
    | succ f =>
      rw [gpcLoop, if_pos (by simpa using hold 0 (Nat.succ_pos k))]
      have harith : t + 1 + k = t + (k + 1) := by omega
      rw [ih (t + 1) f (by omega) (by rw [harith]; exact hnew)
        (fun s hs => by
          rw [show t + 1 + s = t + (s + 1) from by omega]
          exact hold (s + 1) (by omega)), harith]

/-- If every candidate in the window collides, the loop exhausts its budget. -/
lemma gpcLoop_all (existing : List String) (ra rn : Nat → Nat) :
    ∀ (fuel t : Nat), (∀ s, s < fuel → candidate ra rn (t + s) ∈ existing) →
      gpcLoop existing ra rn t fuel = (none, t + fuel) := by
  intro fuel
  induction fuel with
  | zero =>
    intro t _
    rw [gpcLoop]
    rfl
  | succ f ih =>
    intro t hall
    rw [gpcLoop, if_pos (by simpa using hall 0 (Nat.succ_pos f))]
    rw [ih (t + 1) (fun s hs => by
      rw [show t + 1 + s = t + (s + 1) from by omega]
      exact hall (s + 1) (by omega))]
    rw [show t + 1 + f = t + (f + 1) from by omega]

/-- The generator loop consumes at most its budget of pair draws. -/
lemma gpcLoop_le (existing : List String) (ra rn : Nat → Nat) :
    ∀ (fuel t : Nat), (gpcLoop existing ra rn t fuel).2 ≤ t + fuel := by
  intro fuel
  induction fuel with
  | zero =>
    intro t
    rw [gpcLoop]
    omega
  | succ f ih =>
    intro t
    rw [gpcLoop]
    by_cases hc : candidate ra rn t ∈ existing
    · rw [if_pos hc]
      have := ih (t + 1)
      omega
    · rw [if_neg hc]
      show t + 1 ≤ t + (f + 1)
      omega

/-! ### The admin zero-row scan -/

/-- The scan reports the first zero row, naming that participant. -/
lemma zeroRowAux_spec (names : List String) (compat : List (List Nat)) :
    ∀ (i t fuel : Nat), i < fuel →
      (compat.getD (t + i) []).sum = 0 →
      (∀ k < i, (compat.getD (t + k) []).sum ≠ 0) →
      zeroRowAux names compat t fuel = some (names.getD (t + i) "") := by
  intro i
  induction i with
  | zero =>
    intro t fuel hf hz _
    cases fuel with
    | zero => omega
    | succ f =>
      rw [zeroRowAux, if_pos (by simpa using hz)]
      rfl
  | succ i ih =>
    intro t fuel hf hz hfirst
    cases fuel with
    | zero => omega
    | succ f =>
      rw [zeroRowAux, if_neg (by simpa using hfirst 0 (Nat.succ_pos i))]
      have harith : t + 1 + i = t + (i + 1) := by omega
      rw [ih (t + 1) f (by omega) (by rw [harith]; exact hz)
        (fun k hk => by
          rw [show t + 1 + k = t + (k + 1) from by omega]
          exact hfirst (k + 1) (by omega)), harith]

/-! ### Claims -/

/-- Claim C1: soundness of resolve — whenever `find_assignment` returns a
mapping, it was built from a permutation `perm` of `range n` as
`names[i] -> names[perm[i]]`, and every checked compatibility entry
`compat[i][perm[i]]` equals 1. -/
theorem resolve_sound (names : List String) (compat : List (List Nat))
    (maxTries : Nat) (rs : Nat → List Nat) (m : List (String × String)) (d : Nat)
    (hrs : ∀ t, (rs t).Perm (List.range names.length))
    (h : find_assignment names compat maxTries rs = (.found m, d)) :
    ∃ perm : List Nat, perm.Perm (List.range names.length) ∧
      m = buildMapping names perm ∧
      ∀ i < names.length, entry? compat i (perm.getD i 0) = some 1 := by
  obtain ⟨perm, hperm, hch, hm⟩ := find_found_perm names compat maxTries rs m d hrs h
  refine ⟨perm, hperm, hm, ?_⟩
  intro i hi
  have hlen : perm.length = names.length := by
    simpa using hperm.length_eq
  have := checkLoop_true_entry compat perm 0 hch i (by omega)
  simpa using this

/-- Witness for C1 at a concrete successful run. -/
theorem resolve_sound_witness :
    ∃ perm : List Nat, perm.Perm (List.range (["A", "B"] : List String).length) ∧
      [("A", "B"), ("B", "A")] = buildMapping ["A", "B"] perm ∧
      ∀ i < (["A", "B"] : List String).length,
        entry? [[0, 1], [1, 0]] i (perm.getD i 0) = some 1 :=
  resolve_sound ["A", "B"] [[0, 1], [1, 0]] 1 rsBA [("A", "B"), ("B", "A")] 1
    (fun _ => (by decide :
      ([1, 0] : List Nat).Perm (List.range (["A", "B"] : List String).length)))
    (by decide)

/-- Claim C2: any mapping returned on distinct names is a bijection from the
set of names onto itself — its keys are exactly `names`, pairwise distinct,
and its values are a permutation of `names`. -/
theorem resolve_bijection (names : List String) (compat : List (List Nat))
    (maxTries : Nat) (rs : Nat → List Nat) (m : List (String × String)) (d : Nat)
    (hnodup : names.Nodup)
    (hrs : ∀ t, (rs t).Perm (List.range names.length))
    (h : find_assignment names compat maxTries rs = (.found m, d)) :
    m.map Prod.fst = names ∧ (m.map Prod.fst).Nodup ∧ (m.map Prod.snd).Perm names := by
  obtain ⟨perm, hperm, _, hm⟩ := find_found_perm names compat maxTries rs m d hrs h
  subst hm
  have hid : ((List.range names.length).map fun j => names.getD j "") = names := by
    have := map_getD_range names "" (fun x => x)
    simpa using this
  have hfst : (buildMapping names perm).map Prod.fst = names := by
    rw [buildMapping, List.map_map]
    simpa using hid
  have hlen : perm.length = names.length := by
    simpa using hperm.length_eq
  have hsnd : (buildMapping names perm).map Prod.snd
      = perm.map (fun j => names.getD j "") := by
    rw [buildMapping, List.map_map]
    have := map_getD_range perm 0 (fun j => names.getD j "")
    rw [hlen] at this
    simpa using this
  refine ⟨hfst, by rw [hfst]; exact hnodup, ?_⟩
  rw [hsnd]
  have h1 := hperm.map (fun j => names.getD j "")
  rw [hid] at h1
  exact h1

/-- Witness for C2 at a concrete successful run. -/
theorem resolve_bijection_witness :
    ([("A", "B"), ("B", "A")].map Prod.fst = ["A", "B"]) ∧
    ([("A", "B"), ("B", "A")].map Prod.fst).Nodup ∧
    ([("A", "B"), ("B", "A")].map Prod.snd).Perm ["A", "B"] :=
  resolve_bijection ["A", "B"] [[0, 1], [1, 0]] 1 rsBA [("A", "B"), ("B", "A")] 1
    (by decide)
    (fun _ => (by decide :
      ([1, 0] : List Nat).Perm (List.range (["A", "B"] : List String).length)))
    (by decide)

/-- Claim C5: for the empty name list, `find_assignment` returns the empty
mapping immediately with zero shuffle draws, for every matrix, budget and
random source. -/
theorem resolve_empty (compat : List (List Nat)) (maxTries : Nat)
    (rs : Nat → List Nat) :
    find_assignment [] compat maxTries rs = (.found [], 0) := rfl

/-- Counterexample for C3 as stated: on a zero-row matrix, `find_assignment`
itself does not fail fast — here it consumes 2 shuffle draws (not zero) and
returns `None`; it has no infeasible-row failure mode at all. -/
theorem zero_row_no_precheck_cex :
    find_assignment ["A", "B"] [[0, 0], [1, 0]] 2 rsSwap = (.exhausted, 2) := by
  decide

/-- Claim C3 (amended): the zero-row pre-check lives in the `admin_matrix`
handler, which flags the first zero row by participant name before the matrix
is saved — so `find_assignment` is never invoked on it and no shuffle is drawn.
`find_assignment` itself performs no pre-check: on a square zero-row matrix it
consumes its entire `max_tries` budget of shuffle draws and returns `None`. -/
theorem zero_row_detected (names : List String) (compat : List (List Nat))
    (maxTries : Nat) (rs : Nat → List Nat) (i : Nat) (row : List Nat)
    (hsq : compat.length = names.length)
    (hrows : ∀ r ∈ compat, r.length = names.length)
    (hrs : ∀ t, (rs t).Perm (List.range names.length))
    (hi : compat.get? i = some row) (hzero : row.sum = 0)
    (hfirst : ∀ k < i, (compat.getD k []).sum ≠ 0) :
    zeroRowName names compat = some (names.getD i "") ∧
    find_assignment names compat maxTries rs = (.exhausted, maxTries) := by
  have hilt : i < compat.length := by
    by_contra hcon
    rw [List.get?_eq_getElem?, List.getElem?_eq_none (by omega)] at hi
    cases hi
  have hnlen : i < names.length := by omega
  constructor
  · rw [zeroRowName]
    have hgd : compat.getD i [] = row := by
      rw [List.getD_eq_getElem?_getD, ← List.get?_eq_getElem?, hi]
      rfl
    have := zeroRowAux_spec names compat i 0 names.length hnlen
      (by rw [Nat.zero_add, hgd]; exact hzero)
      (fun k hk => by rw [Nat.zero_add]; exact hfirst k hk)
    rw [Nat.zero_add] at this
    exact this
  · have hrowmem : row ∈ compat := by
      have hgd : compat.getD i [] = row := by
        rw [List.getD_eq_getElem?_getD, ← List.get?_eq_getElem?, hi]
        rfl
      rw [← hgd, List.getD_eq_getElem?_getD, List.getElem?_eq_getElem hilt]
      exact List.getElem_mem hilt
    have hall : ∀ s, checkLoop compat 0 (rs s) = Except.ok false := by
      intro s
      have hslen : (rs s).length = names.length := by
        simpa using (hrs s).length_eq
      obtain ⟨b, hb⟩ := checkLoop_isOk compat (rs s) 0
        (by omega)
        (fun j hj r hr => by
          have hjn : j < names.length := by
            have := (hrs s).subset hj
            simpa using this
          rw [hrows r hr]
          exact hjn)
      cases b with
      | false => exact hb
      | true =>
        refine absurd hb
          (checkLoop_not_true_of_zero_row compat (rs s) i row hi hzero (by omega) ?_)
        rw [hrows row hrowmem]
        exact perm_range_getD_lt (hrs s) (by omega)
    rw [find_assignment, if_neg (by omega)]
    have := faLoop_all_fail names compat rs hall maxTries 0
    rw [Nat.zero_add] at this
    exact this

/-- Witness for the amended C3 at the spec's own example input. -/
theorem zero_row_detected_witness :
    zeroRowName ["A", "B"] [[0, 0], [1, 0]] = some "A" ∧
    find_assignment ["A", "B"] [[0, 0], [1, 0]] 1 rsBA = (.exhausted, 1) := by
  have := zero_row_detected ["A", "B"] [[0, 0], [1, 0]] 1 rsBA 0 [0, 0]
    (by decide) (by decide)
    (fun _ => (by decide :
      ([1, 0] : List Nat).Perm (List.range (["A", "B"] : List String).length)))
    (by decide) (by decide) (fun k hk => absurd hk (Nat.not_lt_zero k))
  simpa using this

/-- Counterexample for C4 as stated: `find_assignment` raises a Python
`IndexError` on two names with a 1×1 matrix — the code has no squareness
validation anywhere. -/
theorem resolve_crash_cex :
    find_assignment ["A", "B"] [[1]] 1 rsId2 = (.indexError, 1) := by
  decide

/-- Claim C4 (amended): provided the matrix has at least `n` rows each of
length at least `n`, `find_assignment` never raises — it returns a mapping or
`None`.  On shorter (ragged) matrices an `IndexError` is reachable, since the
code performs no squareness validation. -/
theorem resolve_no_crash (names : List String) (compat : List (List Nat))
    (maxTries : Nat) (rs : Nat → List Nat)
    (hlen : names.length ≤ compat.length)
    (hrows : ∀ r ∈ compat, names.length ≤ r.length)
    (hrs : ∀ t, (rs t).Perm (List.range names.length)) :
    (find_assignment names compat maxTries rs).1 ≠ FAResult.indexError := by
  rw [find_assignment]
  by_cases hn : names.length = 0
  · rw [if_pos hn]
    intro hcon
    cases hcon
  · rw [if_neg hn]
    refine faLoop_ne_error names compat rs ?_ maxTries 0
    intro s
    refine checkLoop_isOk compat (rs s) 0 ?_ ?_
    · have : (rs s).length = names.length := by
        simpa using (hrs s).length_eq
      omega
    · intro j hj r hr
      have hjn : j < names.length := by
        have := (hrs s).subset hj
        simpa using this
      exact lt_of_lt_of_le hjn (hrows r hr)

/-- Witness for the amended C4 on a well-formed square instance. -/
theorem resolve_no_crash_witness :
    (find_assignment ["A", "B"] [[0, 1], [1, 0]] 5 rsBA).1 ≠ FAResult.indexError :=
  resolve_no_crash ["A", "B"] [[0, 1], [1, 0]] 5 rsBA (by decide) (by decide)
    (fun _ => (by decide :
      ([1, 0] : List Nat).Perm (List.range (["A", "B"] : List String).length)))

/-- Counterexample for C6 as stated: under the possible shuffle behaviour that
always yields the identity permutation, `find_assignment` exhausts the default
budget of 100000 draws and returns `None`, not the unique valid mapping. -/
theorem unique_solution_cex :
    find_assignment ["A", "B"] [[0, 1], [1, 0]] 100000 rsId2
      = (.exhausted, 100000) := by
  have hall : ∀ s, checkLoop [[0, 1], [1, 0]] 0 (rsId2 s) = Except.ok false :=
    fun s => (rfl : checkLoop [[0, 1], [1, 0]] 0 [0, 1] = Except.ok false)
  have := faLoop_all_fail ["A", "B"] [[0, 1], [1, 0]] rsId2 hall 100000 0
  rw [Nat.zero_add] at this
  rw [find_assignment, if_neg (by decide)]
  exact this

/-- Claim C6 (amended): for names A,B with the swap-only matrix, any mapping
`find_assignment` returns is the unique valid one, A→B and B→A, whatever the
shuffle sequence; success itself is not guaranteed (see the counterexample). -/
theorem unique_solution_if_found (maxTries : Nat) (rs : Nat → List Nat)
    (m : List (String × String)) (d : Nat)
    (hrs : ∀ t, (rs t).Perm (List.range (["A", "B"] : List String).length))
    (h : find_assignment ["A", "B"] [[0, 1], [1, 0]] maxTries rs = (.found m, d)) :
    m = [("A", "B"), ("B", "A")] := by
  obtain ⟨perm, hperm, hch, hm⟩ := find_found_perm _ _ _ _ _ _ hrs h
  rcases perm_range2 (by simpa using hperm) with rfl | rfl
  · exact absurd hch (by decide)
  · rw [hm]
    decide

/-- Witness for the amended C6 at a concrete successful run. -/
theorem unique_solution_if_found_witness :
    ([("A", "B"), ("B", "A")] : List (String × String)) = [("A", "B"), ("B", "A")] :=
  unique_solution_if_found 1 rsBA [("A", "B"), ("B", "A")] 1
    (fun _ => (by decide :
      ([1, 0] : List Nat).Perm (List.range (["A", "B"] : List String).length)))
    (by decide)

/-- Claim C7: on names A,B,C with the fully permissive off-diagonal matrix,
every successful result is one of exactly the two derangement mappings. -/
theorem derangement_results (maxTries : Nat) (rs : Nat → List Nat)
    (m : List (String × String)) (d : Nat)
    (hrs : ∀ t, (rs t).Perm (List.range (["A", "B", "C"] : List String).length))
    (h : find_assignment ["A", "B", "C"] [[0, 1, 1], [1, 0, 1], [1, 1, 0]] maxTries rs
      = (.found m, d)) :
    m = [("A", "B"), ("B", "C"), ("C", "A")] ∨
    m = [("A", "C"), ("B", "A"), ("C", "B")] := by
  obtain ⟨perm, hperm, hch, hm⟩ := find_found_perm _ _ _ _ _ _ hrs h
  rcases perm_range3 (by simpa using hperm) with rfl | rfl | rfl | rfl | rfl | rfl
  · exact absurd hch (by decide)
  · exact absurd hch (by decide)
  · left
    rw [hm]
    decide
  · exact absurd hch (by decide)
  · right
    rw [hm]
    decide
  · exact absurd hch (by decide)

/-- Witness for C7 at a concrete successful run. -/
theorem derangement_results_witness :
    ([("A", "B"), ("B", "C"), ("C", "A")] : List (String × String))
        = [("A", "B"), ("B", "C"), ("C", "A")] ∨
    ([("A", "B"), ("B", "C"), ("C", "A")] : List (String × String))
        = [("A", "C"), ("B", "A"), ("C", "B")] :=
  derangement_results 1 rsCycle3 [("A", "B"), ("B", "C"), ("C", "A")] 1
    (fun _ => (by decide :
      ([1, 2, 0] : List Nat).Perm (List.range (["A", "B", "C"] : List String).length)))
    (by decide)

/-- Claim C8: if some candidate among the first 100 draws is fresh, `generate`
returns the first such candidate, and it is not a member of `existing`. -/
theorem generate_loop_fresh (existing? : Option (List String)) (ra rn : Nat → Nat)
    (rNum : Nat) (t0 : Nat) (ht : t0 < 100)
    (hnew : candidate ra rn t0 ∉ existing?.getD [])
    (hold : ∀ s < t0, candidate ra rn s ∈ existing?.getD []) :
    (gen_password_christmas existing? ra rn rNum).1 = candidate ra rn t0 ∧
    (gen_password_christmas existing? ra rn rNum).1 ∉ existing?.getD [] := by
  have hloop := gpcLoop_first (existing?.getD []) ra rn t0 0 100 ht
    (by simpa using hnew) (fun s hs => by simpa using hold s hs)
  rw [Nat.zero_add] at hloop
  have hgen : gen_password_christmas existing? ra rn rNum
      = (candidate ra rn t0, t0 + 1) := by
    unfold gen_password_christmas
    rw [hloop]
  rw [hgen]
  exact ⟨rfl, hnew⟩

/-- Witness for C8 on an empty issued set. -/
theorem generate_loop_fresh_witness :
    (gen_password_christmas (some []) (fun _ => 0) (fun _ => 0) 10).1
        = candidate (fun _ => 0) (fun _ => 0) 0 ∧
    (gen_password_christmas (some []) (fun _ => 0) (fun _ => 0) 10).1
        ∉ ((some ([] : List String)).getD []) :=
  generate_loop_fresh (some []) (fun _ => 0) (fun _ => 0) 10 0 (by decide)
    (by decide) (fun s hs => absurd hs (Nat.not_lt_zero s))

/-- Claim C9: when all 100 loop candidates collide with `existing`, `generate`
returns a freshly drawn pair carrying a two-digit numeric suffix between 10 and
99, without re-checking `existing` — and on a concrete input this fallback
value is already a member of `existing`. -/
theorem generate_fallback_unchecked (existing? : Option (List String))
    (ra rn : Nat → Nat) (rNum : Nat) (h10 : 10 ≤ rNum) (h99 : rNum ≤ 99)
    (hall : ∀ t < 100, candidate ra rn t ∈ existing?.getD []) :
    (gen_password_christmas existing? ra rn rNum).1
        = candidate ra rn 100 ++ "_" ++ toString rNum ∧
    (toString rNum).length = 2 ∧
    (gen_password_christmas (some ["joyeux_sapin", "joyeux_sapin_10"])
        (fun _ => 0) (fun _ => 0) 10).1 ∈ ["joyeux_sapin", "joyeux_sapin_10"] := by
  refine ⟨?_, ?_, ?_⟩
  · have hloop := gpcLoop_all (existing?.getD []) ra rn 100 0
      (fun s hs => by simpa using hall s hs)
    rw [Nat.zero_add] at hloop
    unfold gen_password_christmas
    rw [hloop]
  · have hdec : ∀ n ∈ Finset.Icc 10 99, (toString n).length = 2 := by decide
    exact hdec rNum (Finset.mem_Icc.mpr ⟨h10, h99⟩)
  · decide

/-- Witness for C9: a fully colliding oracle reaches the fallback, whose
result is already issued. -/
theorem generate_fallback_unchecked_witness :
    (gen_password_christmas (some ["joyeux_sapin", "joyeux_sapin_10"])
        (fun _ => 0) (fun _ => 0) 10).1
      = candidate (fun _ => 0) (fun _ => 0) 100 ++ "_" ++ toString 10 ∧
    (toString 10).length = 2 ∧
    (gen_password_christmas (some ["joyeux_sapin", "joyeux_sapin_10"])
        (fun _ => 0) (fun _ => 0) 10).1 ∈ ["joyeux_sapin", "joyeux_sapin_10"] :=
  generate_fallback_unchecked (some ["joyeux_sapin", "joyeux_sapin_10"])
    (fun _ => 0) (fun _ => 0) 10 (by decide) (by decide)
    (fun t ht => (by decide : ("joyeux_sapin" : String)
      ∈ ((some ["joyeux_sapin", "joyeux_sapin_10"] : Option (List String)).getD [])))

/-- Claim C10: `gen_password_christmas` always returns, treats a missing
`existing` set as empty, and consumes at most 101 pair draws — the 100 loop
candidates plus at most one fallback draw. -/
theorem generate_total (existing? : Option (List String)) (ra rn : Nat → Nat)
    (rNum : Nat) :
    (gen_password_christmas existing? ra rn rNum).2 ≤ 101 ∧
    gen_password_christmas none ra rn rNum
      = gen_password_christmas (some []) ra rn rNum := by
  constructor
  · have hle := gpcLoop_le (existing?.getD []) ra rn 100 0
    rw [Nat.zero_add] at hle
    unfold gen_password_christmas
    rcases hg : gpcLoop (existing?.getD []) ra rn 0 100 with ⟨o, d⟩
    rw [hg] at hle
    replace hle : d ≤ 100 := hle
    cases o with
    | some c =>
      show d ≤ 101
      omega
    | none =>
      show d + 1 ≤ 101
      omega
  · rfl

end SSanta
